import Mathlib

set_option autoImplicit false

/-!
Verification development for the cc-catalog normalization, validation and
serialization layer.  The definitions below embed, as Lean functions, the
license resolver, the audio record builder and buffered store
(`common/storage/audio.py`), and the re-normalizer (`util/pg_cleaner.py`).
Components whose implementation files are not part of the available source
tree (`common/licenses/licenses.py`, `common/storage/image.py`,
`common/storage/columns.py`, `common/storage/util.py`, `util/tsv_cleaner.py`)
are modelled from the specification; their doc comments say so explicitly.
-/

namespace CCCatalog

/-- A JSON-like value, standing in for the dynamically typed Python values
that flow through record construction (`None`, strings, integers, lists,
dictionaries).  Dictionaries keep insertion order, as Python dicts do. -/
inductive JVal where
  | jnull : JVal
  | jstr : String → JVal
  | jint : Int → JVal
  | jlist : List JVal → JVal
  | jdict : List (String × JVal) → JVal

/-- `listStarts p s` holds when the character list `p` is an initial
segment of `s`.  Used to embed Python substring tests. -/
def listStarts : List Char → List Char → Bool
  | [], _ => true
  | _ :: _, [] => false
  | a :: f, b :: s => a == b && listStarts f s

/-- `listOccurs f s` holds when `f` occurs contiguously inside `s`;
this embeds Python's `f in s` on strings. -/
def listOccurs (f : List Char) : List Char → Bool
  | [] => f.isEmpty
  | c :: t => listStarts f (c :: t) || listOccurs f t

/-- String version of `listStarts`. -/
def strStarts (p s : String) : Bool := listStarts p.data s.data

/-- String version of `listOccurs`, embedding Python's `frag in url`. -/
def strOccurs (f s : String) : Bool := listOccurs f.data s.data

/-- ASCII lowercasing of one character, as Python's `str.lower` does on
the ASCII range that license URLs use. -/
def charLower (c : Char) : Char :=
  if 65 ≤ c.toNat ∧ c.toNat ≤ 90 then Char.ofNat (c.toNat + 32) else c

/-- ASCII lowercasing of a string. -/
def strLower (s : String) : String := String.mk (s.data.map charLower)

/-- One entry of the static license path table: a Creative Commons URL path
fragment together with the canonical license code and version it denotes. -/
structure LicenseEntry where
  path : String
  code : String
  version : String

/-- Modelled from the spec: the static license path table
(`LICENSE_PATH_MAP`, declared in code missing from the source tree) maps
known license path fragments such as "by/4.0" and "zero/1.0" to their
canonical `(code, version)` pairs. -/
def licensePathMap : List LicenseEntry :=
  [ ⟨"licenses/by/1.0", "by", "1.0"⟩,
    ⟨"licenses/by/2.0", "by", "2.0"⟩,
    ⟨"licenses/by/2.5", "by", "2.5"⟩,
    ⟨"licenses/by/3.0", "by", "3.0"⟩,
    ⟨"licenses/by/4.0", "by", "4.0"⟩,
    ⟨"licenses/by-sa/4.0", "by-sa", "4.0"⟩,
    ⟨"licenses/by-nc/4.0", "by-nc", "4.0"⟩,
    ⟨"licenses/by-nd/4.0", "by-nd", "4.0"⟩,
    ⟨"licenses/by-nc-sa/4.0", "by-nc-sa", "4.0"⟩,
    ⟨"licenses/by-nc-nd/4.0", "by-nc-nd", "4.0"⟩,
    ⟨"zero/1.0", "cc0", "1.0"⟩,
    ⟨"publicdomain/mark/1.0", "pdm", "1.0"⟩ ]

/-- Canonical Creative Commons URL head used by the domain check. -/
def ccDomainPrefixes : List String :=
  ["https://creativecommons.org/", "http://creativecommons.org/"]

/-- Modelled from the spec: step 1 of license resolution
(`licenses._get_valid_cc_license_url`, missing from the source tree).
The URL is lowercased and its host must be the Creative Commons domain,
otherwise the URL is rejected (unusable, not fatal).  The single redirect
hop is network behavior and is modelled as the identity rewrite. -/
def getValidCCLicenseUrl : Option String → Option String
  | none => none
  | some u =>
    let lu := strLower u
    if ccDomainPrefixes.any (fun p => strStarts p lu) then some lu else none

/-- Modelled from the spec: step 2 of license resolution
(`licenses._derive_license_from_url`, missing from the source tree).  The
lowercased URL is matched against the path table by fragment containment;
a later matching entry overwrites an earlier one, as the Python loop does.
A URL whose path matches no entry raises `InvalidLicenseURLException`
(embedded as `Except.error`), as the repository's own test
`test_derive_license_from_url_with_license_url_path_mismatch` records. -/
def deriveLicenseFromUrl (pathMap : List LicenseEntry) (licenseUrl : String) :
    Except Unit (String × String) :=
  let found := pathMap.foldl
    (fun acc e => if strOccurs e.path licenseUrl then some (e.code, e.version) else acc)
    none
  match found with
  | some cv => Except.ok cv
  | none => Except.error ()

/-- Whether a character list holds a decimal dot. -/
def hasDotChar : List Char → Bool
  | [] => false
  | c :: t => c == '.' || hasDotChar t

/-- Modelled from the spec: a numeric version representation is normalized
to its canonical decimal string form (`1` or `1.0` becomes "1.0"); a
string already holding a dot is kept as given. -/
def normalizeVersionString (v : String) : String :=
  if hasDotChar v.data then v else v ++ ".0"

/-- Modelled from the spec: step 4 of license resolution
(`licenses._validate_license_pair`, missing from the source tree).  When
either member of the explicit pair is absent, or the normalized pair is
not a table entry, both fields are nulled. -/
def validateLicensePair (pathMap : List LicenseEntry) :
    Option String → Option String → Option String × Option String
  | none, _ => (none, none)
  | some _, none => (none, none)
  | some l, some v =>
    let nv := normalizeVersionString v
    if pathMap.any (fun e => e.code == l && e.version == nv)
    then (some l, some nv)
    else (none, none)

/-- The resolver's result triple (`licenses.LicenseInfo`). -/
structure LicenseInfo where
  license : Option String
  version : Option String
  url : Option String

/-- Modelled from the spec: the license resolver
(`licenses.get_license_info`, missing from the source tree).  A value
derived from a valid URL takes precedence over the explicit pair; a valid
CC URL whose path matches no table entry is logged and yields
`(None, None)` — the internal exception never escapes; with no usable URL
the explicit pair is validated against the table.  The returned `url` is
the supplied `license_url`. -/
def getLicenseInfo (pathMap : List LicenseEntry)
    (licenseUrl license_ licenseVersion : Option String) : LicenseInfo :=
  match getValidCCLicenseUrl licenseUrl with
  | some validUrl =>
    match deriveLicenseFromUrl pathMap validUrl with
    | Except.ok cv => ⟨some cv.1, some cv.2, licenseUrl⟩
    | Except.error _ => ⟨none, none, licenseUrl⟩
  | none =>
    let lv := validateLicensePair pathMap license_ licenseVersion
    ⟨lv.1, lv.2, licenseUrl⟩

/-- C1: whenever the supplied `license_url` is a valid Creative Commons URL
from which a `(code, version)` pair is derivable, `get_license_info`
returns that derived pair — whatever explicit `(license_, license_version)`
pair was supplied alongside — and returns the supplied `license_url`
itself as the `url` member. -/
theorem getLicenseInfo_prefers_derived (pathMap : List LicenseEntry)
    (url vu c v : String)
    (hvalid : getValidCCLicenseUrl (some url) = some vu)
    (hderive : deriveLicenseFromUrl pathMap vu = Except.ok (c, v)) :
    ∀ l lv : Option String,
      getLicenseInfo pathMap (some url) l lv = ⟨some c, some v, some url⟩ := by
  intro l lv
  simp only [getLicenseInfo, hvalid, hderive]

/-- Witness for C1: the CC attribution 4.0 URL derives ("by", "4.0"), which
beats the explicitly supplied pair ("license", "1.0"), and the supplied URL
is echoed back. -/
theorem getLicenseInfo_prefers_derived_witness :
    getValidCCLicenseUrl (some "https://creativecommons.org/licenses/by/4.0/")
        = some "https://creativecommons.org/licenses/by/4.0/"
    ∧ deriveLicenseFromUrl licensePathMap
        "https://creativecommons.org/licenses/by/4.0/" = Except.ok ("by", "4.0")
    ∧ getLicenseInfo licensePathMap
        (some "https://creativecommons.org/licenses/by/4.0/")
        (some "license") (some "1.0")
      = ⟨some "by", some "4.0",
         some "https://creativecommons.org/licenses/by/4.0/"⟩ :=
  ⟨rfl, rfl,
   getLicenseInfo_prefers_derived licensePathMap
     "https://creativecommons.org/licenses/by/4.0/"
     "https://creativecommons.org/licenses/by/4.0/" "by" "4.0"
     rfl rfl (some "license") (some "1.0")⟩

/-- C2: resolution is a total function — no exception escapes it — and in
particular, when the URL's host is the Creative Commons domain but its
path matches no entry of the static license path table (so the internal
derivation step raises), `get_license_info` still returns a plain result
whose license and version are both `None`, with the supplied URL passed
through. -/
theorem getLicenseInfo_path_mismatch_yields_none (pathMap : List LicenseEntry)
    (url vu : String)
    (hvalid : getValidCCLicenseUrl (some url) = some vu)
    (hmismatch : deriveLicenseFromUrl pathMap vu = Except.error ()) :
    ∀ l lv : Option String,
      getLicenseInfo pathMap (some url) l lv = ⟨none, none, some url⟩ := by
  intro l lv
  simp only [getLicenseInfo, hvalid, hmismatch]

/-- Witness for C2: a CC-domain URL with an unknown license path resolves
to `(None, None)` with the URL passed through, despite the internal
derivation error. -/
theorem getLicenseInfo_path_mismatch_yields_none_witness :
    getValidCCLicenseUrl (some "https://creativecommons.org/licenses/notreal/9.9/")
        = some "https://creativecommons.org/licenses/notreal/9.9/"
    ∧ deriveLicenseFromUrl licensePathMap
        "https://creativecommons.org/licenses/notreal/9.9/" = Except.error ()
    ∧ getLicenseInfo licensePathMap
        (some "https://creativecommons.org/licenses/notreal/9.9/")
        (some "by") (some "4.0")
      = ⟨none, none, some "https://creativecommons.org/licenses/notreal/9.9/"⟩ :=
  ⟨rfl, rfl,
   getLicenseInfo_path_mismatch_yields_none licensePathMap
     "https://creativecommons.org/licenses/notreal/9.9/"
     "https://creativecommons.org/licenses/notreal/9.9/"
     rfl rfl (some "by") (some "4.0")⟩

/-- Python dict lookup on an insertion-ordered association list. -/
def dictGet (m : List (String × JVal)) (k : String) : Option JVal :=
  match m with
  | [] => none
  | p :: t => if p.1 == k then some p.2 else dictGet t k

/-- Python dict assignment: an existing key is updated in place, a new key
is appended at the end, preserving insertion order. -/
def dictSet (m : List (String × JVal)) (k : String) (v : JVal) : List (String × JVal) :=
  match m with
  | [] => [(k, v)]
  | p :: t => if p.1 == k then (k, v) :: t else p :: dictSet t k v

/-- An optional string as a JSON-like value (`None` becomes null). -/
def optStr : Option String → JVal
  | none => JVal.jnull
  | some s => JVal.jstr s

/-- An optional integer as a JSON-like value. -/
def optInt : Option Int → JVal
  | none => JVal.jnull
  | some n => JVal.jint n

/-- Modelled from the spec: `meta_data` enrichment
(`ImageStore._enrich_meta_data`, in `image.py`, missing from the source
tree).  A non-mapping input — `None` included — is replaced wholesale by a
fresh mapping holding the license URL under "license_url"; a mapping input
is kept, with the license URL added under "license_url". -/
def enrichMetaData (metaData : JVal) (licenseUrl : Option String) : JVal :=
  match metaData with
  | JVal.jdict m => JVal.jdict (dictSet m "license_url" (optStr licenseUrl))
  | _ => JVal.jdict [("license_url", optStr licenseUrl)]

/-- Modelled from the spec: one raw tag
(`ImageStore._format_raw_tag`, in `image.py`, missing from the source
tree).  An already-structured (mapping) tag passes through unchanged; any
other tag is wrapped as a mapping with the tag under "name" and the
store's provider under "provider". -/
def formatRawTag (provider : Option String) (tag : JVal) : JVal :=
  match tag with
  | JVal.jdict m => JVal.jdict m
  | t => JVal.jdict [("name", t), ("provider", optStr provider)]

/-- Modelled from the spec: tags enrichment
(`ImageStore._enrich_tags`, in `image.py`, missing from the source tree).
A non-list input becomes absent; a list input has each tag formatted. -/
def enrichTags (provider : Option String) (rawTags : JVal) : JVal :=
  match rawTags with
  | JVal.jlist ts => JVal.jlist (ts.map (formatRawTag provider))
  | _ => JVal.jnull

/-- Modelled from the spec: `util.get_source` (in `util.py`, missing from
the source tree) — `source` defaults to the provider when not explicitly
overridden. -/
def getSource (source provider : Option String) : Option String :=
  match source with
  | none => provider
  | some s => some s

/-- Modelled from the spec: `util.choose_license_and_version` (in
`util.py`, missing from the source tree) resolves the canonical license
pair through the license resolver against the static path table. -/
def chooseLicenseAndVersion (licenseUrl license_ licenseVersion : Option String) :
    Option String × Option String :=
  let info := getLicenseInfo licensePathMap licenseUrl license_ licenseVersion
  (info.license, info.version)

/-- The null sentinel written for an absent optional field. -/
def nullSentinel : String := "\\N"

/-- A column kind of the storage schema with its size/truncation policy. -/
inductive ColKind where
  | stringCol : Nat → Bool → ColKind
  | urlCol : Nat → ColKind
  | intCol : ColKind
  | jsonCol : ColKind

/-- One column of a TSV schema: name, required flag, and kind. -/
structure TsvColumn where
  name : String
  required : Bool
  kind : ColKind

/-- Modelled from the spec: over-limit behavior of string-valued columns —
truncate when the column allows it, otherwise the value is unusable. -/
def enforceCharLimit (s : String) (size : Nat) (trunc : Bool) : Option String :=
  if s.data.length ≤ size then some s
  else if trunc then some (String.mk (s.data.take size)) else none

/-- Modelled from the spec: URL columns require an absolute http/https URL
(`urls.validate_url_string`, missing from the source tree); a valid URL
passes through unchanged. -/
def validateUrlString (s : String) : Option String :=
  if strStarts "http://" s || strStarts "https://" s then some s else none

mutual

/-- Modelled from the spec: the deterministic compact textual JSON form of
a structured column value, keys in stored order, in the `json.dumps` style
the repository's tests record. -/
def jsonSerialize : JVal → String
  | JVal.jnull => "null"
  | JVal.jstr s => "\"" ++ s ++ "\""
  | JVal.jint n => toString n
  | JVal.jlist xs => "[" ++ jsonSerializeArr xs ++ "]"
  | JVal.jdict m => "\x7b" ++ jsonSerializeObj m ++ "\x7d"

/-- Comma-joined serialization of a JSON array's elements. -/
def jsonSerializeArr : List JVal → String
  | [] => ""
  | [x] => jsonSerialize x
  | x :: y :: t => jsonSerialize x ++ ", " ++ jsonSerializeArr (y :: t)

/-- Comma-joined serialization of a JSON object's entries. -/
def jsonSerializeObj : List (String × JVal) → String
  | [] => ""
  | [(k, v)] => "\"" ++ k ++ "\": " ++ jsonSerialize v
  | (k, v) :: p :: t =>
    "\"" ++ k ++ "\": " ++ jsonSerialize v ++ ", " ++ jsonSerializeObj (p :: t)

end

/-- Modelled from the spec: per-column serialization (`columns.py`,
missing from the source tree).  String and URL columns check size limits,
URL columns additionally require an absolute http/https URL, integer
columns print their decimal form, structured columns serialize to JSON
with an empty structure becoming absent; an absent or unusable value
yields `None`. -/
def prepareString (col : TsvColumn) (v : JVal) : Option String :=
  match col.kind with
  | ColKind.stringCol size trunc =>
    match v with
    | JVal.jstr s => enforceCharLimit s size trunc
    | _ => none
  | ColKind.urlCol size =>
    match v with
    | JVal.jstr s =>
      match validateUrlString s with
      | some t => enforceCharLimit t size false
      | none => none
    | _ => none
  | ColKind.intCol =>
    match v with
    | JVal.jint n => some (toString n)
    | _ => none
  | ColKind.jsonCol =>
    match v with
    | JVal.jnull => none
    | JVal.jdict [] => none
    | JVal.jlist [] => none
    | w => some (jsonSerialize w)

/-- Modelled from the spec: `_prepare_valid_row_list` (in `image.py`,
missing from the source tree) serializes each field through its column in
the declared order; a required column whose serialization is absent
rejects the whole record, an optional one falls back to the null
sentinel. -/
def prepareRow : List TsvColumn → List JVal → Option (List String)
  | [], [] => some []
  | [], _ :: _ => none
  | _ :: _, [] => none
  | col :: cols, v :: vs =>
    match prepareRow cols vs with
    | none => none
    | some rest =>
      match prepareString col v with
      | some s => some (s :: rest)
      | none => if col.required then none else some (nullSentinel :: rest)

/-- Modelled from the spec: `_create_tsv_row` (in `image.py`, missing from
the source tree) joins the serialized fields with tabs and appends one
newline. -/
def createTsvRow (cols : List TsvColumn) (vals : List JVal) : Option String :=
  match prepareRow cols vals with
  | none => none
  | some fields => some (String.intercalate "\t" fields ++ "\n")

/-- The audio TSV schema, translated entry by entry from
`_AUDIO_TSV_COLUMNS` in `common/storage/audio.py`; the list order is the
column order of the TSV. -/
def audioTsvColumns : List TsvColumn :=
  [ ⟨"foreign_identifier", false, ColKind.stringCol 3000 false⟩,
    ⟨"foreign_landing_url", true, ColKind.urlCol 1000⟩,
    ⟨"audio_url", true, ColKind.urlCol 3000⟩,
    ⟨"file_format", false, ColKind.stringCol 25 true⟩,
    ⟨"thumbnail_url", false, ColKind.urlCol 3000⟩,
    ⟨"filesize", false, ColKind.intCol⟩,
    ⟨"duration", false, ColKind.intCol⟩,
    ⟨"samplerate", false, ColKind.intCol⟩,
    ⟨"bitdepth", false, ColKind.intCol⟩,
    ⟨"channels", false, ColKind.intCol⟩,
    ⟨"license_", true, ColKind.stringCol 50 false⟩,
    ⟨"license_version", true, ColKind.stringCol 25 false⟩,
    ⟨"creator", false, ColKind.stringCol 2000 true⟩,
    ⟨"creator_url", false, ColKind.urlCol 2000⟩,
    ⟨"title", false, ColKind.stringCol 5000 true⟩,
    ⟨"album", false, ColKind.stringCol 5000 true⟩,
    ⟨"genre", false, ColKind.stringCol 5000 true⟩,
    ⟨"language", false, ColKind.stringCol 5000 true⟩,
    ⟨"meta_data", false, ColKind.jsonCol⟩,
    ⟨"tags", false, ColKind.jsonCol⟩,
    ⟨"provider", false, ColKind.stringCol 80 false⟩,
    ⟨"source", false, ColKind.stringCol 80 false⟩ ]

/-- The keyword arguments of `AudioStore.add_item` (audio.py). -/
structure AudioArgs where
  foreign_landing_url : Option String
  audio_url : Option String
  file_format : Option String
  thumbnail_url : Option String
  duration : Option Int
  samplerate : Option Int
  bitdepth : Option Int
  channels : Option Int
  license_url : Option String
  license_ : Option String
  license_version : Option String
  foreign_identifier : Option String
  creator : Option String
  creator_url : Option String
  title : Option String
  album : Option String
  genre : Option String
  language : Option String
  meta_data : JVal
  raw_tags : JVal
  source : Option String

/-- All arguments defaulted to `None`, as in the Python signature. -/
def defaultAudioArgs : AudioArgs :=
  ⟨none, none, none, none, none, none, none, none, none, none, none,
   none, none, none, none, none, none, none, JVal.jnull, JVal.jnull, none⟩

/-- The `_Audio` namedtuple of audio.py; its field list is the column
name list of `_AUDIO_TSV_COLUMNS`. -/
structure AudioNT where
  foreign_identifier : Option String
  foreign_landing_url : Option String
  audio_url : Option String
  file_format : Option String
  thumbnail_url : Option String
  filesize : Option Int
  duration : Option Int
  samplerate : Option Int
  bitdepth : Option Int
  channels : Option Int
  license_ : Option String
  license_version : Option String
  creator : Option String
  creator_url : Option String
  title : Option String
  album : Option String
  genre : Option String
  language : Option String
  meta_data : JVal
  tags : JVal
  provider : Option String
  source : Option String

/-- The namedtuple's field values in declared column order. -/
def audioValues (a : AudioNT) : List JVal :=
  [ optStr a.foreign_identifier, optStr a.foreign_landing_url,
    optStr a.audio_url, optStr a.file_format, optStr a.thumbnail_url,
    optInt a.filesize, optInt a.duration, optInt a.samplerate,
    optInt a.bitdepth, optInt a.channels, optStr a.license_,
    optStr a.license_version, optStr a.creator, optStr a.creator_url,
    optStr a.title, optStr a.album, optStr a.genre, optStr a.language,
    a.meta_data, a.tags, optStr a.provider, optStr a.source ]

/-- `AudioStore._get_audio` from audio.py: resolve the license pair,
compute the source fallback, enrich `meta_data` and tags, and assemble
the `_Audio` namedtuple with `filesize` fixed to `None`. -/
def getAudio (provider : Option String) (a : AudioArgs) : AudioNT :=
  let lp := chooseLicenseAndVersion a.license_url a.license_ a.license_version
  let src := getSource a.source provider
  let md := enrichMetaData a.meta_data a.license_url
  let tags := enrichTags provider a.raw_tags
  ⟨a.foreign_identifier, a.foreign_landing_url, a.audio_url, a.file_format,
   a.thumbnail_url, none, a.duration, a.samplerate, a.bitdepth, a.channels,
   lp.1, lp.2, a.creator, a.creator_url, a.title, a.album, a.genre,
   a.language, md, tags, provider, src⟩

/-- The serialized row `AudioStore.add_item` computes for a call. -/
def audioTsvRowFor (provider : Option String) (a : AudioArgs) : Option String :=
  createTsvRow audioTsvColumns (audioValues (getAudio provider a))

/-- The mutable state of an `AudioStore`: the in-memory line buffer, the
running accepted total, the lines already flushed to the destination
file, a count of flush events, and the configured buffer threshold. -/
structure StoreState where
  buffer : List String
  total : Nat
  written : List String
  flushCount : Nat
  bufferLength : Nat

/-- A fresh store with threshold `t` (audio.py defaults `t` to 100). -/
def initStore (t : Nat) : StoreState := ⟨[], 0, [], 0, t⟩

/-- `_flush_buffer` (in `image.py`): the buffered lines are appended to
the destination and the buffer cleared. -/
def flushBuffer (s : StoreState) : StoreState :=
  ⟨[], s.total, s.written ++ s.buffer, s.flushCount + 1, s.bufferLength⟩

/-- The append-and-count half of `AudioStore.add_item` (audio.py lines
211–213): a produced row is appended to the buffer and the running total
is bumped; a rejected record changes nothing. -/
def addItemAppend (s : StoreState) : Option String → StoreState
  | some line =>
    ⟨s.buffer ++ [line], s.total + 1, s.written, s.flushCount, s.bufferLength⟩
  | none => s

/-- The flush check of `AudioStore.add_item` (audio.py lines 214–215):
flush when the buffer length has reached the configured threshold. -/
def addItemFlushCheck (s : StoreState) : StoreState :=
  if s.bufferLength ≤ s.buffer.length then flushBuffer s else s

/-- `AudioStore.add_item` from audio.py: build the record, serialize it,
append it to the buffer if it was produced, flush at the threshold, and
return the running total together with the new state. -/
def addItem (provider : Option String) (s : StoreState) (a : AudioArgs) :
    Nat × StoreState :=
  let s2 := addItemFlushCheck (addItemAppend s (audioTsvRowFor provider a))
  (s2.total, s2)

/-- A sequence of `add_item` calls against one store. -/
def addItems (provider : Option String) (s : StoreState)
    (items : List AudioArgs) : StoreState :=
  items.foldl (fun st a => (addItem provider st a).2) s

/-- A call's record is accepted when serialization produces a row. -/
def acceptedArgs (provider : Option String) (a : AudioArgs) : Prop :=
  (audioTsvRowFor provider a).isSome = true

instance (provider : Option String) (a : AudioArgs) :
    Decidable (acceptedArgs provider a) :=
  inferInstanceAs (Decidable (_ = true))

/-- Store states reachable by a run: a fresh store with positive
threshold followed by any sequence of `add_item` calls. -/
inductive ReachableStore (provider : Option String) : StoreState → Prop where
  | init (t : Nat) (h : 1 ≤ t) : ReachableStore provider (initStore t)
  | step (s : StoreState) (a : AudioArgs) (hs : ReachableStore provider s) :
      ReachableStore provider (addItem provider s a).2

/-- A concrete accepted call: landing page, media URL and a CC0 license
URL, as in the spec's example scenario. -/
def sampleArgsZero : AudioArgs :=
  { defaultAudioArgs with
    foreign_landing_url := some "https://x.org/1",
    audio_url := some "https://x.org/1.mp3",
    license_url := some "https://creativecommons.org/publicdomain/zero/1.0/" }

theorem addItemAppend_bufferLength (s : StoreState) (r : Option String) :
    (addItemAppend s r).bufferLength = s.bufferLength := by
  cases r <;> rfl

theorem addItemAppend_flushCount (s : StoreState) (r : Option String) :
    (addItemAppend s r).flushCount = s.flushCount := by
  cases r <;> rfl

theorem addItemAppend_buffer_le (s : StoreState) (r : Option String) :
    (addItemAppend s r).buffer.length ≤ s.buffer.length + 1 := by
  cases r <;> simp [addItemAppend]

/-- Any state reachable by a run keeps its buffer strictly below the
threshold between calls, and the threshold is positive. -/
theorem reachableStore_invariant (provider : Option String) (s : StoreState)
    (h : ReachableStore provider s) :
    s.buffer.length < s.bufferLength ∧ 1 ≤ s.bufferLength := by
  induction h with
  | init t ht => exact ⟨ht, ht⟩
  | step s a _ ih =>
    obtain ⟨ih1, ih2⟩ := ih
    have h2 : (addItem provider s a).2
        = addItemFlushCheck (addItemAppend s (audioTsvRowFor provider a)) := rfl
    rw [h2]
    have hbl := addItemAppend_bufferLength s (audioTsvRowFor provider a)
    have hle := addItemAppend_buffer_le s (audioTsvRowFor provider a)
    unfold addItemFlushCheck
    split
    · exact ⟨by simpa [flushBuffer, hbl] using ih2,
             by simpa [flushBuffer, hbl] using ih2⟩
    · rename_i hf
      exact ⟨by omega, by omega⟩

/-- C3: from any reachable store state, an `add_item` call whose record
fails validation of a required column returns the previous running total
and leaves the whole store state — buffer, running total, and the lines
written to the destination — unchanged, so no line for the rejected
record is ever written. -/
theorem addItem_rejected_returns_previous_total (provider : Option String)
    (s : StoreState) (a : AudioArgs)
    (hreach : ReachableStore provider s)
    (hrej : audioTsvRowFor provider a = none) :
    addItem provider s a = (s.total, s) := by
  obtain ⟨hlt, _⟩ := reachableStore_invariant provider s hreach
  have hfix : addItemFlushCheck (addItemAppend s (audioTsvRowFor provider a)) = s := by
    rw [hrej]
    show addItemFlushCheck s = s
    unfold addItemFlushCheck
    rw [if_neg (by omega)]
  have hdef : addItem provider s a
      = ((addItemFlushCheck (addItemAppend s (audioTsvRowFor provider a))).total,
         addItemFlushCheck (addItemAppend s (audioTsvRowFor provider a))) := rfl
  rw [hdef, hfix]

/-- Witness for C3: a call with every argument absent is rejected and
leaves a fresh store with threshold 100 untouched, returning total 0. -/
theorem addItem_rejected_returns_previous_total_witness :
    audioTsvRowFor none defaultAudioArgs = none
    ∧ addItem none (initStore 100) defaultAudioArgs = (0, initStore 100) :=
  ⟨rfl, addItem_rejected_returns_previous_total none (initStore 100)
     defaultAudioArgs (ReachableStore.init 100 (by decide)) rfl⟩

/-- C7: meta_data enrichment always yields a mapping; a non-mapping input
(None included) is replaced wholesale — the result does not depend on the
non-mapping input at all — by a fresh mapping holding the call's license
URL under "license_url"; a mapping input is kept with the license URL set
under "license_url". -/
theorem enrichMetaData_always_mapping (md : JVal) (url : Option String) :
    (∃ m, enrichMetaData md url = JVal.jdict m)
    ∧ ((∀ m, md ≠ JVal.jdict m) →
        enrichMetaData md url = JVal.jdict [("license_url", optStr url)])
    ∧ (∀ m, md = JVal.jdict m →
        enrichMetaData md url = JVal.jdict (dictSet m "license_url" (optStr url))) := by
  refine ⟨?_, ?_, ?_⟩
  · cases md <;> simp [enrichMetaData]
  · intro hnm
    cases md with
    | jdict m => exact absurd rfl (hnm m)
    | jnull => rfl
    | jstr s => rfl
    | jint n => rfl
    | jlist xs => rfl
  · intro m hm
    subst hm
    rfl

/-- Witness for C7: `meta_data=None` with the CC BY 4.0 license URL
enriches to a mapping holding exactly that URL under "license_url". -/
theorem enrichMetaData_always_mapping_witness :
    enrichMetaData JVal.jnull (some "https://creativecommons.org/licenses/by/4.0/")
      = JVal.jdict
          [("license_url", JVal.jstr "https://creativecommons.org/licenses/by/4.0/")] :=
  (enrichMetaData_always_mapping JVal.jnull
      (some "https://creativecommons.org/licenses/by/4.0/")).2.1
    (fun _ h => JVal.noConfusion h)

/-- Serialized rows have exactly one field per schema column. -/
theorem prepareRow_length (cols : List TsvColumn) :
    ∀ (vals : List JVal) (fields : List String),
      prepareRow cols vals = some fields → fields.length = cols.length := by
  induction cols with
  | nil =>
    intro vals fields h
    cases vals with
    | nil => simp [prepareRow] at h; simp [h.symm]
    | cons v vs => simp [prepareRow] at h
  | cons col cols ih =>
    intro vals fields h
    cases vals with
    | nil => simp [prepareRow] at h
    | cons v vs =>
      simp only [prepareRow] at h
      cases hr : prepareRow cols vs with
      | none => rw [hr] at h; simp at h
      | some rest =>
        rw [hr] at h
        cases hp : prepareString col v with
        | some sv =>
          rw [hp] at h
          simp only [Option.some.injEq] at h
          rw [h.symm]
          simp [ih vs rest hr]
        | none =>
          rw [hp] at h
          cases hq : col.required with
          | true => rw [hq] at h; simp at h
          | false =>
            rw [hq] at h
            simp only [Bool.false_eq_true, if_false, Option.some.injEq] at h
            rw [h.symm]
            simp [ih vs rest hr]

/-- Positionwise description of a serialized row: a serialized value lands
at its column's position, and an absent value of an optional column lands
as the null sentinel. -/
theorem prepareRow_get? (cols : List TsvColumn) :
    ∀ (vals : List JVal) (fields : List String),
      prepareRow cols vals = some fields →
      ∀ (i : Nat) (col : TsvColumn) (v : JVal),
        cols.get? i = some col → vals.get? i = some v →
        (∀ sv, prepareString col v = some sv → fields.get? i = some sv)
        ∧ (prepareString col v = none →
            col.required = false ∧ fields.get? i = some nullSentinel) := by
  induction cols with
  | nil =>
    intro vals fields _ i col v hc _
    simp at hc
  | cons c cols ih =>
    intro vals fields h i col v hc hv
    cases vals with
    | nil => simp [prepareRow] at h
    | cons v0 vs =>
      simp only [prepareRow] at h
      cases hr : prepareRow cols vs with
      | none => rw [hr] at h; simp at h
      | some rest =>
        rw [hr] at h
        cases i with
        | zero =>
          have hcc : c = col := by simpa using hc
          have hvv : v0 = v := by simpa using hv
          rw [hcc, hvv] at h
          cases hp : prepareString col v with
          | some sv =>
            rw [hp] at h
            simp only [Option.some.injEq] at h
            constructor
            · intro sv2 hp2
              cases hp2
              rw [← h]
              rfl
            · intro hn
              exact Option.noConfusion hn
          | none =>
            rw [hp] at h
            cases hq : col.required with
            | true => rw [hq] at h; simp at h
            | false =>
              rw [hq] at h
              simp only [Bool.false_eq_true, if_false, Option.some.injEq] at h
              constructor
              · intro sv2 hp2
                exact Option.noConfusion hp2
              · intro _
                exact ⟨rfl, by rw [← h]; rfl⟩
        | succ j =>
          simp only [List.get?] at hc hv
          have hrec := ih vs rest hr j col v hc hv
          have hfields : ∃ f0, fields = f0 :: rest := by
            cases hp : prepareString c v0 with
            | some sv => rw [hp] at h; exact ⟨sv, by simpa using h.symm⟩
            | none =>
              rw [hp] at h
              cases hq : c.required with
              | true => rw [hq] at h; simp at h
              | false =>
                rw [hq] at h
                exact ⟨nullSentinel, by simpa using h.symm⟩
          obtain ⟨f0, hf⟩ := hfields
          rw [hf]
          exact hrec

/-- C8: every accepted audio record serializes to exactly one output line:
the line is the tab-joined list of the per-column serializations taken in
the schema's declared column order (22 fields), every absent optional field
appears as the null sentinel token, every produced field value appears at
its own column position, and the line carries one terminating newline. -/
theorem audioTsvRow_format (provider : Option String) (a : AudioArgs)
    (line : String) (h : audioTsvRowFor provider a = some line) :
    ∃ fields,
      prepareRow audioTsvColumns (audioValues (getAudio provider a)) = some fields
      ∧ line = String.intercalate "\t" fields ++ "\n"
      ∧ fields.length = 22
      ∧ (∀ (i : Nat) (col : TsvColumn) (v : JVal),
          audioTsvColumns.get? i = some col →
          (audioValues (getAudio provider a)).get? i = some v →
          prepareString col v = none →
          col.required = false ∧ fields.get? i = some nullSentinel)
      ∧ (∀ (i : Nat) (col : TsvColumn) (v : JVal) (sv : String),
          audioTsvColumns.get? i = some col →
          (audioValues (getAudio provider a)).get? i = some v →
          prepareString col v = some sv → fields.get? i = some sv) := by
  unfold audioTsvRowFor createTsvRow at h
  cases hr : prepareRow audioTsvColumns (audioValues (getAudio provider a)) with
  | none => rw [hr] at h; cases h
  | some fields =>
    rw [hr] at h
    simp only [Option.some.injEq] at h
    refine ⟨fields, rfl, h.symm, ?_, ?_, ?_⟩
    · have := prepareRow_length audioTsvColumns _ fields hr
      simpa using this
    · intro i col v hc hv hp
      exact (prepareRow_get? audioTsvColumns _ fields hr i col v hc hv).2 hp
    · intro i col v sv hc hv hp
      exact (prepareRow_get? audioTsvColumns _ fields hr i col v hc hv).1 sv hp

/-- Witness for C8: the spec's example CC0 record serializes to the
expected 22-field tab-separated line with null sentinels and a trailing
newline. -/
theorem audioTsvRow_format_witness :
    audioTsvRowFor none sampleArgsZero
      = some ("\\N\thttps://x.org/1\thttps://x.org/1.mp3\t\\N\t\\N\t\\N\t\\N\t\\N\t\\N\t\\N\tcc0\t1.0\t\\N\t\\N\t\\N\t\\N\t\\N\t\\N\t\x7b\"license_url\": \"https://creativecommons.org/publicdomain/zero/1.0/\"\x7d\t\\N\t\\N\t\\N\n")
    ∧ ∃ fields,
      prepareRow audioTsvColumns (audioValues (getAudio none sampleArgsZero)) = some fields
      ∧ ("\\N\thttps://x.org/1\thttps://x.org/1.mp3\t\\N\t\\N\t\\N\t\\N\t\\N\t\\N\t\\N\tcc0\t1.0\t\\N\t\\N\t\\N\t\\N\t\\N\t\\N\t\x7b\"license_url\": \"https://creativecommons.org/publicdomain/zero/1.0/\"\x7d\t\\N\t\\N\t\\N\n")
          = String.intercalate "\t" fields ++ "\n"
      ∧ fields.length = 22
      ∧ (∀ (i : Nat) (col : TsvColumn) (v : JVal),
          audioTsvColumns.get? i = some col →
          (audioValues (getAudio none sampleArgsZero)).get? i = some v →
          prepareString col v = none →
          col.required = false ∧ fields.get? i = some nullSentinel)
      ∧ (∀ (i : Nat) (col : TsvColumn) (v : JVal) (sv : String),
          audioTsvColumns.get? i = some col →
          (audioValues (getAudio none sampleArgsZero)).get? i = some v →
          prepareString col v = some sv → fields.get? i = some sv) :=
  ⟨rfl, audioTsvRow_format none sampleArgsZero _ rfl⟩

/-- C9: the audio record assembled by any `add_item` call carries
`filesize = None` — the public signature exposes no filesize argument —
and hence the filesize column (position 5 of the schema) of every
accepted audio row serializes to the null sentinel. -/
theorem getAudio_filesize_none (provider : Option String) (a : AudioArgs) :
    (getAudio provider a).filesize = none
    ∧ ∀ fields,
        prepareRow audioTsvColumns (audioValues (getAudio provider a)) = some fields →
        fields.get? 5 = some nullSentinel := by
  refine ⟨rfl, ?_⟩
  intro fields h
  have hc : audioTsvColumns.get? 5 = some ⟨"filesize", false, ColKind.intCol⟩ := rfl
  have hv : (audioValues (getAudio provider a)).get? 5 = some JVal.jnull := rfl
  have hp : prepareString ⟨"filesize", false, ColKind.intCol⟩ JVal.jnull = none := rfl
  exact ((prepareRow_get? audioTsvColumns _ fields h 5 _ _ hc hv).2 hp).2

/-- Witness for C9: the spec's example CC0 record is accepted and its
serialized row has the null sentinel at the filesize position. -/
theorem getAudio_filesize_none_witness :
    (getAudio none sampleArgsZero).filesize = none
    ∧ (∃ fields,
        prepareRow audioTsvColumns (audioValues (getAudio none sampleArgsZero)) = some fields)
    ∧ ∀ fields,
        prepareRow audioTsvColumns (audioValues (getAudio none sampleArgsZero)) = some fields →
        fields.get? 5 = some nullSentinel :=
  ⟨rfl, ⟨_, rfl⟩, (getAudio_filesize_none none sampleArgsZero).2⟩

/-- Running only accepted calls keeps the buffer below the threshold and
maintains `buffer length + threshold · flush count` as an exact counter of
the calls processed. -/
theorem addItems_accepted_run (provider : Option String) (t : Nat) (ht : 1 ≤ t) :
    ∀ (items : List AudioArgs) (s : StoreState),
      s.bufferLength = t → s.buffer.length < t →
      (∀ a ∈ items, acceptedArgs provider a) →
      (addItems provider s items).bufferLength = t
      ∧ (addItems provider s items).buffer.length < t
      ∧ (addItems provider s items).buffer.length
          + t * (addItems provider s items).flushCount
        = s.buffer.length + t * s.flushCount + items.length := by
  intro items
  induction items with
  | nil =>
    intro s h1 h2 _
    exact ⟨h1, h2, by simp [addItems]⟩
  | cons a rest ih =>
    intro s h1 h2 h3
    have hacc : acceptedArgs provider a := h3 a (List.mem_cons_self a rest)
    obtain ⟨line, hline⟩ := Option.isSome_iff_exists.mp hacc
    have hstep : addItems provider s (a :: rest)
        = addItems provider
            (addItemFlushCheck (addItemAppend s (audioTsvRowFor provider a))) rest := rfl
    rw [hstep]
    have happ : addItemAppend s (audioTsvRowFor provider a)
        = ⟨s.buffer ++ [line], s.total + 1, s.written, s.flushCount, s.bufferLength⟩ := by
      rw [hline]; rfl
    set s1 : StoreState :=
      ⟨s.buffer ++ [line], s.total + 1, s.written, s.flushCount, s.bufferLength⟩ with hs1
    rw [happ]
    have hs1len : s1.buffer.length = s.buffer.length + 1 := by simp [hs1]
    by_cases hful : s1.bufferLength ≤ s1.buffer.length
    · have hflush : addItemFlushCheck s1 = flushBuffer s1 := by
        unfold addItemFlushCheck
        rw [if_pos hful]
      rw [hflush]
      have hres := ih (flushBuffer s1) (by simp [flushBuffer, hs1, h1])
        (by simp [flushBuffer]; omega) (fun x hx => h3 x (List.mem_cons_of_mem a hx))
      refine ⟨hres.1, hres.2.1, ?_⟩
      have heq := hres.2.2
      have hfl : (flushBuffer s1).buffer.length = 0 := rfl
      have hfc : (flushBuffer s1).flushCount = s.flushCount + 1 := by simp [flushBuffer, hs1]
      have hexact : s.buffer.length + 1 = t := by
        have hbl1 : s1.bufferLength = t := by simp [hs1, h1]
        omega
      rw [hfl, hfc, Nat.mul_succ] at heq
      simp only [List.length_cons]
      omega
    · have hnoflush : addItemFlushCheck s1 = s1 := by
        unfold addItemFlushCheck
        rw [if_neg hful]
      rw [hnoflush]
      have hbl1 : s1.bufferLength = t := by simp [hs1, h1]
      have hres := ih s1 hbl1 (by omega)
        (fun x hx => h3 x (List.mem_cons_of_mem a hx))
      refine ⟨hres.1, hres.2.1, ?_⟩
      have heq := hres.2.2
      have hfc1 : s1.flushCount = s.flushCount := rfl
      rw [hs1len, hfc1] at heq
      simp only [List.length_cons]
      omega

/-- C4 (amended): for every buffer threshold T that is at least 2, after
T+1 `add_item` calls that are each individually accepted, starting from an
empty store, exactly one flush has occurred and the in-memory buffer holds
exactly one item.  (At T = 1 the code flushes on every accepted call, so
after T+1 = 2 calls two flushes have occurred and the buffer is empty.) -/
theorem addItems_threshold_flush_behavior (t : Nat) (ht : 2 ≤ t)
    (provider : Option String) (items : List AudioArgs)
    (hlen : items.length = t + 1)
    (hacc : ∀ a ∈ items, acceptedArgs provider a) :
    (addItems provider (initStore t) items).flushCount = 1
    ∧ (addItems provider (initStore t) items).buffer.length = 1 := by
  have hrun := addItems_accepted_run provider t (by omega) items (initStore t)
    rfl (by simp [initStore]; omega) hacc
  obtain ⟨-, hlt, hsum⟩ := hrun
  have hinit1 : (initStore t).buffer.length = 0 := rfl
  have hinit2 : (initStore t).flushCount = 0 := rfl
  rw [hinit1, hinit2, hlen] at hsum
  generalize hF : (addItems provider (initStore t) items).flushCount = F at hsum ⊢
  generalize hL : (addItems provider (initStore t) items).buffer.length = L at hsum hlt ⊢
  rcases F with _ | _ | F
  · omega
  · omega
  · have hm : t * (F + 1 + 1) = t * F + t + t := by ring
    omega

/-- Witness for C4 (amended): threshold 2 with three accepted calls yields
one flush and a single buffered row. -/
theorem addItems_threshold_flush_behavior_witness :
    (2 ≤ 2
      ∧ ([sampleArgsZero, sampleArgsZero, sampleArgsZero] : List AudioArgs).length = 2 + 1
      ∧ ∀ a ∈ ([sampleArgsZero, sampleArgsZero, sampleArgsZero] : List AudioArgs),
          acceptedArgs none a)
    ∧ (addItems none (initStore 2) [sampleArgsZero, sampleArgsZero, sampleArgsZero]).flushCount = 1
    ∧ (addItems none (initStore 2) [sampleArgsZero, sampleArgsZero, sampleArgsZero]).buffer.length = 1 :=
  ⟨⟨by omega, rfl, by decide⟩,
   addItems_threshold_flush_behavior 2 (by omega) none
     [sampleArgsZero, sampleArgsZero, sampleArgsZero] rfl (by decide)⟩

/-- C4 counterexample: with buffer threshold T = 1, two `add_item` calls
that are each individually accepted, starting from an empty store, produce
two flushes and an empty buffer — not exactly one flush with the buffer
holding one item, as the claim states for every threshold T. -/
theorem addItems_threshold_one_counterexample :
    (∀ a ∈ ([sampleArgsZero, sampleArgsZero] : List AudioArgs), acceptedArgs none a)
    ∧ (addItems none (initStore 1) [sampleArgsZero, sampleArgsZero]).flushCount = 2
    ∧ (addItems none (initStore 1) [sampleArgsZero, sampleArgsZero]).buffer.length = 0
    ∧ ¬ ((addItems none (initStore 1) [sampleArgsZero, sampleArgsZero]).flushCount = 1
        ∧ (addItems none (initStore 1) [sampleArgsZero, sampleArgsZero]).buffer.length = 1) := by
  refine ⟨by decide, by decide, by decide, by decide⟩

/-- One cleaned row applied to the database when cleaning succeeds;
`clean` embeds `_get_clean_row_tuple` (which may raise) and `apply` the
identifier-keyed UPDATE run against the database. -/
def applyCleaned {Row Db E : Type} (clean : Row → Except E Row)
    (apply : Db → Row → Row → Db) (db : Db) (r : Row) : Db :=
  match clean r with
  | Except.ok cr => apply db r cr
  | Except.error _ => db

/-- The loop of `clean_rows` (util/pg_cleaner.py lines 120–134): each
selected row is cleaned and its update applied, counting cleaned rows;
the first raised error logs and calls `sys.exit(1)` — embedded as a
`none` count — leaving the database as it stood before the failing row
and never touching the remaining rows. -/
def cleanRowsLoop {Row Db E : Type} (clean : Row → Except E Row)
    (apply : Db → Row → Row → Db) :
    List Row → Db → Nat → Db × Option Nat
  | [], db, acc => (db, some acc)
  | r :: rest, db, acc =>
    match clean r with
    | Except.ok cr => cleanRowsLoop clean apply rest (apply db r cr) (acc + 1)
    | Except.error _ => (db, none)

/-- `clean_rows` over the selected partition: run the loop from a zero
count; the second component is `some total_cleaned` on success and `none`
when the process exited non-zero. -/
def cleanRows {Row Db E : Type} (clean : Row → Except E Row)
    (apply : Db → Row → Row → Db) (rows : List Row) (db : Db) :
    Db × Option Nat :=
  cleanRowsLoop clean apply rows db 0

theorem cleanRowsLoop_ok {Row Db E : Type} (clean : Row → Except E Row)
    (apply : Db → Row → Row → Db) :
    ∀ (rows : List Row) (db : Db) (acc : Nat),
      (∀ r ∈ rows, ∃ cr, clean r = Except.ok cr) →
      cleanRowsLoop clean apply rows db acc
        = (rows.foldl (applyCleaned clean apply) db, some (acc + rows.length)) := by
  intro rows
  induction rows with
  | nil => intro db acc _; simp [cleanRowsLoop]
  | cons r rest ih =>
    intro db acc hall
    obtain ⟨cr, hcr⟩ := hall r (List.mem_cons_self r rest)
    have hstep : cleanRowsLoop clean apply (r :: rest) db acc
        = cleanRowsLoop clean apply rest (apply db r cr) (acc + 1) := by
      simp only [cleanRowsLoop, hcr]
    rw [hstep, ih (apply db r cr) (acc + 1)
      (fun x hx => hall x (List.mem_cons_of_mem r hx))]
    have hfold : (r :: rest).foldl (applyCleaned clean apply) db
        = rest.foldl (applyCleaned clean apply) (apply db r cr) := by
      simp only [List.foldl_cons, applyCleaned, hcr]
    rw [hfold]
    simp only [List.length_cons]
    have harith : acc + 1 + rest.length = acc + (rest.length + 1) := by omega
    rw [harith]

/-- C5: the re-normalizer's batch loop is fail-fast — if no row's
reprocessing raises, `clean_rows` applies every update and returns the
number of rows cleaned; if reprocessing a row raises, the run aborts at
that row with a non-zero exit (`none`), the updates already applied to the
earlier rows stay in place, and no later row of the batch is processed
(the result does not depend on the rows after the failing one). -/
theorem cleanRows_fail_fast {Row Db E : Type} (clean : Row → Except E Row)
    (apply : Db → Row → Row → Db) :
    (∀ (rows : List Row) (db : Db),
      (∀ r ∈ rows, ∃ cr, clean r = Except.ok cr) →
      cleanRows clean apply rows db
        = (rows.foldl (applyCleaned clean apply) db, some rows.length))
    ∧ ∀ (pre post : List Row) (bad : Row) (db : Db) (e : E),
        (∀ r ∈ pre, ∃ cr, clean r = Except.ok cr) →
        clean bad = Except.error e →
        cleanRows clean apply (pre ++ bad :: post) db
          = (pre.foldl (applyCleaned clean apply) db, none) := by
  constructor
  · intro rows db hall
    have := cleanRowsLoop_ok clean apply rows db 0 hall
    simpa [cleanRows] using this
  · intro pre post bad db e
    induction pre generalizing db with
    | nil =>
      intro _ hbad
      simp only [cleanRows, List.nil_append, cleanRowsLoop, hbad, List.foldl_nil]
    | cons r rest ih =>
      intro hall hbad
      obtain ⟨cr, hcr⟩ := hall r (List.mem_cons_self r rest)
      have hstep : cleanRows clean apply ((r :: rest) ++ bad :: post) db
          = cleanRowsLoop clean apply (rest ++ bad :: post) (apply db r cr) 1 := by
        simp only [cleanRows, List.cons_append, cleanRowsLoop, hcr]; rfl
      have hrec := ih (apply db r cr)
        (fun x hx => hall x (List.mem_cons_of_mem r hx)) hbad
      have hrec2 : cleanRowsLoop clean apply (rest ++ bad :: post) (apply db r cr) 0
          = (rest.foldl (applyCleaned clean apply) (apply db r cr), none) := hrec
      have habort : ∀ (l : List Row) (d : Db) (a b : Nat),
          (cleanRowsLoop clean apply l d a).2 = none →
          cleanRowsLoop clean apply l d b = ((cleanRowsLoop clean apply l d a).1, none) := by
        intro l
        induction l with
        | nil => intro d a b hnone; simp [cleanRowsLoop] at hnone
        | cons x xs ihl =>
          intro d a b hnone
          cases hx : clean x with
          | ok cx =>
            simp only [cleanRowsLoop, hx] at hnone ⊢
            exact ihl (apply d x cx) (a + 1) (b + 1) hnone
          | error ex => simp only [cleanRowsLoop, hx]
      rw [hstep]
      have hn : (cleanRowsLoop clean apply (rest ++ bad :: post) (apply db r cr) 0).2
          = none := by rw [hrec2]
      rw [habort (rest ++ bad :: post) (apply db r cr) 0 1 hn, hrec2]
      simp only [List.foldl_cons, applyCleaned, hcr]

/-- Witness cleaner for C5: row 3 raises, every other row cleans to its
successor. -/
def wClean : Nat → Except Unit Nat :=
  fun r => if r = 3 then Except.error () else Except.ok (r + 1)

/-- Witness updater for C5: an update appends the cleaned value. -/
def wApply : List Nat → Nat → Nat → List Nat :=
  fun db _ cr => db ++ [cr]

/-- Witness for C5: a clean batch [1, 2] returns 2 with both updates
applied; the batch [1, 3, 9] aborts at row 3 with row 1's update kept and
row 9 never processed. -/
theorem cleanRows_fail_fast_witness :
    cleanRows wClean wApply [1, 2] [] = ([2, 3], some 2)
    ∧ cleanRows wClean wApply [1, 3, 9] [] = ([2], none) :=
  ⟨(cleanRows_fail_fast wClean wApply).1 [1, 2] []
     (by
       intro r hr
       fin_cases hr
       · exact ⟨2, rfl⟩
       · exact ⟨3, rfl⟩),
   (cleanRows_fail_fast wClean wApply).2 [1] [9] 3 [] ()
     (by
       intro r hr
       fin_cases hr
       exact ⟨2, rfl⟩)
     rfl⟩

/-- The single-quote character used by the SQL value formatter. -/
def quoteChar : Char := Char.ofNat 39

/-- The quote-doubling of `str.replace` in `_finish_string`
(util/pg_cleaner.py line 96): every single quote becomes two. -/
def escapeChars : List Char → List Char
  | [] => []
  | c :: t =>
    if c == quoteChar then quoteChar :: quoteChar :: escapeChars t
    else c :: escapeChars t

/-- `ImageCleaner._finish_string` from util/pg_cleaner.py line 95–96:
`None` becomes the literal `null`, and a string becomes the string
wrapped in single quotes with each embedded single quote doubled. -/
def finishString : Option String → String
  | none => "null"
  | some s => String.mk (quoteChar :: (escapeChars s.data ++ [quoteChar]))

/-- Scanner state for `escapedBody`: when the flag is set, the previous
character was an unmatched single quote whose partner must follow. -/
def escapedBodyAux : Bool → List Char → Bool
  | false, [] => true
  | false, c :: t =>
    if c == quoteChar then escapedBodyAux true t else escapedBodyAux false t
  | true, [] => false
  | true, c :: t => c == quoteChar && escapedBodyAux false t

/-- A body is escaped when its single quotes occur only in adjacent
pairs. -/
def escapedBody (l : List Char) : Bool := escapedBodyAux false l

mutual

/-- Collapsing doubled quotes: the inverse reading of an escaped body. -/
def unescapeChars : List Char → List Char
  | [] => []
  | c :: t =>
    if c == quoteChar then quoteChar :: unescapeAfterQuote t
    else c :: unescapeChars t

/-- After an opening quote of a doubled pair: skip its partner. -/
def unescapeAfterQuote : List Char → List Char
  | [] => []
  | _ :: t2 => unescapeChars t2

end

theorem escapedBody_escapeChars (l : List Char) :
    escapedBody (escapeChars l) = true := by
  have haux : ∀ m : List Char, escapedBodyAux false (escapeChars m) = true := by
    intro m
    induction m with
    | nil => rfl
    | cons c t ih =>
      cases hc : c == quoteChar with
      | true => simp [escapeChars, escapedBodyAux, hc, ih]
      | false => simp [escapeChars, escapedBodyAux, hc, ih]
  exact haux l

theorem unescapeChars_escapeChars (l : List Char) :
    unescapeChars (escapeChars l) = l := by
  induction l with
  | nil => rfl
  | cons c t ih =>
    cases hc : c == quoteChar with
    | true =>
      have hcq : c = quoteChar := by simpa using hc
      subst hcq
      simp [escapeChars, unescapeChars, unescapeAfterQuote, ih]
    | false => simp [escapeChars, unescapeChars, hc, ih]

/-- C10: `_finish_string` maps `None` to the literal `null`, and maps a
string `s` to a well-formed SQL string literal: a single-quote, then a
body whose single quotes occur only as adjacent doubled pairs, then a
closing single-quote — and collapsing the doubled quotes of that body
recovers exactly `s`, so the body is `s` with every embedded single quote
doubled. -/
theorem finishString_sql_value (s : Option String) :
    (s = none → finishString s = "null")
    ∧ ∀ str, s = some str →
        ∃ body, finishString s = String.mk (quoteChar :: (body ++ [quoteChar]))
          ∧ escapedBody body = true
          ∧ unescapeChars body = str.data := by
  constructor
  · intro h; rw [h]; rfl
  · intro str h
    rw [h]
    exact ⟨escapeChars str.data, rfl, escapedBody_escapeChars str.data,
      unescapeChars_escapeChars str.data⟩

/-- Witness for C10: `None` gives `null`, and the value `d--b` (written
via its character codes; code 39 is the single quote) yields a quoted
body that is escaped and collapses back to the input. -/
theorem finishString_sql_value_witness :
    (finishString none = "null")
    ∧ ∃ body,
        finishString (some (String.mk [Char.ofNat 100, Char.ofNat 39, Char.ofNat 98]))
          = String.mk (quoteChar :: (body ++ [quoteChar]))
        ∧ escapedBody body = true
        ∧ unescapeChars body
            = (String.mk [Char.ofNat 100, Char.ofNat 39, Char.ofNat 98]).data :=
  ⟨(finishString_sql_value none).1 rfl,
   (finishString_sql_value
       (some (String.mk [Char.ofNat 100, Char.ofNat 39, Char.ofNat 98]))).2
     (String.mk [Char.ofNat 100, Char.ofNat 39, Char.ofNat 98]) rfl⟩

/-- The stored length of an optional text column value. -/
def optLen : Option String → Nat
  | none => 0
  | some s => s.data.length

/-- Modelled from the spec: an optional string column at the stored-value
level — an absent value stays absent, an over-limit value truncates when
the column allows it and otherwise becomes absent. -/
def optStringCol (size : Nat) (trunc : Bool) : Option String → Option String
  | none => none
  | some s => enforceCharLimit s size trunc

/-- Modelled from the spec: an optional URL column at the stored-value
level — the value must be an absolute http/https URL within the size
limit, and otherwise becomes absent. -/
def optUrlCol (size : Nat) : Option String → Option String
  | none => none
  | some s =>
    match validateUrlString s with
    | some t => enforceCharLimit t size false
    | none => none

/-- Modelled from the spec: a structured column at the stored-value
level — empty structures store as null, other values round-trip through
the destination unchanged. -/
def normJson : JVal → JVal
  | JVal.jnull => JVal.jnull
  | JVal.jdict [] => JVal.jnull
  | JVal.jlist [] => JVal.jnull
  | JVal.jstr s => JVal.jstr s
  | JVal.jint n => JVal.jint n
  | JVal.jdict (p :: m) => JVal.jdict (p :: m)
  | JVal.jlist (x :: xs) => JVal.jlist (x :: xs)

/-- Modelled from the spec: `tsv_cleaner.get_license_url` (missing from
the source tree) recovers the original license URL from the row's own
stored `meta_data` mapping. -/
def getLicenseUrl (md : JVal) : Option String :=
  match md with
  | JVal.jdict m =>
    match dictGet m "license_url" with
    | some (JVal.jstr s) => some s
    | _ => none
  | _ => none

/-- One persisted image-table row at the stored-value level: exactly the
columns `clean_rows` reads and writes back (util/pg_cleaner.py). -/
@[ext]
structure ImageRow where
  foreign_identifier : Option String
  foreign_landing_url : Option String
  image_url : Option String
  thumbnail_url : Option String
  width : Option Int
  height : Option Int
  filesize : Option Int
  license_ : Option String
  license_version : Option String
  creator : Option String
  creator_url : Option String
  title : Option String
  meta_data : JVal
  tags : JVal
  watermarked : Option String
  provider : Option String
  source : Option String

/-- Modelled from the spec: the required-field gate of the image schema —
landing URL, image URL and the resolved license pair must serialize, or
the rebuilt record is rejected (which, inside the re-normalizer, is the
raised error that aborts the batch). -/
def imageRequiredOk (row : ImageRow) : Bool :=
  let lp := chooseLicenseAndVersion (getLicenseUrl row.meta_data)
    row.license_ row.license_version
  (optUrlCol 1000 row.foreign_landing_url).isSome
  && (optUrlCol 3000 row.image_url).isSome
  && (optStringCol 50 false lp.1).isSome
  && (optStringCol 25 false lp.2).isSome

/-- Modelled from the spec: the new stored column values the re-normalizer
computes for one row — the record builder's enrichment steps (license
resolution from the recovered URL, source fallback, meta_data and tag
enrichment, filesize pinned absent) followed by the column validators at
the stored-value level, with sizes and truncation flags of the image
schema. -/
def buildCleanImage (row : ImageRow) : ImageRow :=
  let licenseUrl := getLicenseUrl row.meta_data
  let lp := chooseLicenseAndVersion licenseUrl row.license_ row.license_version
  let src := getSource row.source row.provider
  ⟨optStringCol 3000 false row.foreign_identifier,
   optUrlCol 1000 row.foreign_landing_url,
   optUrlCol 3000 row.image_url,
   optUrlCol 3000 row.thumbnail_url,
   row.width, row.height, none,
   optStringCol 50 false lp.1,
   optStringCol 25 false lp.2,
   optStringCol 2000 true row.creator,
   optUrlCol 2000 row.creator_url,
   optStringCol 5000 true row.title,
   normJson (enrichMetaData row.meta_data licenseUrl),
   normJson (enrichTags row.provider row.tags),
   optStringCol 80 false row.watermarked,
   optStringCol 80 false row.provider,
   optStringCol 80 false src⟩

/-- `pg_cleaner._get_clean_row_tuple` at the stored-value level: rebuild
the candidate record from the stored fields and validate it; a
required-field rejection is the raised error that aborts the batch. -/
def cleanImageRow (row : ImageRow) : Except Unit ImageRow :=
  if imageRequiredOk row then Except.ok (buildCleanImage row) else Except.error ()

/-- One re-normalizer pass over a partition of persisted rows: every row
is cleaned, and any raised error aborts the pass. -/
def cleanImagePartition : List ImageRow → Except Unit (List ImageRow)
  | [] => Except.ok []
  | r :: rest =>
    match cleanImageRow r with
    | Except.error e => Except.error e
    | Except.ok r2 =>
      match cleanImagePartition rest with
      | Except.error e => Except.error e
      | Except.ok rest2 => Except.ok (r2 :: rest2)

theorem enforceCharLimit_ok (s t : String) (size : Nat) (trunc : Bool)
    (h : enforceCharLimit s size trunc = some t) :
    t.data.length ≤ size ∧ enforceCharLimit t size trunc = some t := by
  unfold enforceCharLimit at h
  by_cases hle : s.data.length ≤ size
  · rw [if_pos hle] at h
    cases h
    exact ⟨hle, by unfold enforceCharLimit; rw [if_pos hle]⟩
  · rw [if_neg hle] at h
    cases trunc with
    | false => simp at h
    | true =>
      simp only [if_true] at h
      cases h
      have hlen : (String.mk (s.data.take size)).data.length ≤ size := by
        show (s.data.take size).length ≤ size
        rw [List.length_take]
        exact Nat.min_le_left size s.data.length
      exact ⟨hlen, by unfold enforceCharLimit; rw [if_pos hlen]⟩

theorem enforceCharLimit_false_eq (s t : String) (size : Nat)
    (h : enforceCharLimit s size false = some t) :
    t = s ∧ s.data.length ≤ size := by
  unfold enforceCharLimit at h
  by_cases hle : s.data.length ≤ size
  · rw [if_pos hle] at h
    cases h
    exact ⟨rfl, hle⟩
  · rw [if_neg hle] at h
    simp at h

theorem optStringCol_idem (size : Nat) (trunc : Bool) (x : Option String) :
    optStringCol size trunc (optStringCol size trunc x) = optStringCol size trunc x := by
  cases x with
  | none => rfl
  | some s =>
    show optStringCol size trunc (enforceCharLimit s size trunc)
        = enforceCharLimit s size trunc
    cases he : enforceCharLimit s size trunc with
    | none => rfl
    | some t =>
      show enforceCharLimit t size trunc = some t
      exact (enforceCharLimit_ok s t size trunc he).2

theorem optStringCol_of_le (size : Nat) (trunc : Bool) (x : Option String)
    (h : optLen x ≤ size) : optStringCol size trunc x = x := by
  cases x with
  | none => rfl
  | some s =>
    show enforceCharLimit s size trunc = some s
    unfold enforceCharLimit
    rw [if_pos (by simpa [optLen] using h)]

theorem optStringCol_req (size : Nat) (x : Option String)
    (h : (optStringCol size false x).isSome = true) :
    ∃ c, x = some c ∧ optStringCol size false x = some c
      ∧ c.data.length ≤ size := by
  cases x with
  | none => simp [optStringCol] at h
  | some s =>
    cases he : enforceCharLimit s size false with
    | none =>
      rw [show optStringCol size false (some s) = enforceCharLimit s size false
        from rfl, he] at h
      simp at h
    | some t =>
      obtain ⟨ht, hle⟩ := enforceCharLimit_false_eq s t size he
      subst ht
      exact ⟨t, rfl, he, hle⟩

theorem validateUrlString_eq (s t : String) (h : validateUrlString s = some t) :
    t = s ∧ validateUrlString t = some t := by
  unfold validateUrlString at h
  by_cases hv : (strStarts "http://" s || strStarts "https://" s) = true
  · rw [if_pos hv] at h
    cases h
    exact ⟨rfl, by unfold validateUrlString; rw [if_pos hv]⟩
  · rw [if_neg hv] at h
    exact Option.noConfusion h

theorem optUrlCol_idem (size : Nat) (x : Option String) :
    optUrlCol size (optUrlCol size x) = optUrlCol size x := by
  cases x with
  | none => rfl
  | some s =>
    cases hv : validateUrlString s with
    | none => simp only [optUrlCol, hv]
    | some t =>
      obtain ⟨hts, hvt⟩ := validateUrlString_eq s t hv
      subst hts
      cases he : enforceCharLimit t size false with
      | none => simp only [optUrlCol, hv, he]
      | some u =>
        obtain ⟨hut, hle⟩ := enforceCharLimit_false_eq t u size he
        subst hut
        simp only [optUrlCol, hv, he]

theorem dictGet_dictSet (m : List (String × JVal)) (k : String) (v : JVal) :
    dictGet (dictSet m k v) k = some v := by
  induction m with
  | nil => simp [dictSet, dictGet]
  | cons p t ih =>
    by_cases hk : (p.1 == k) = true
    · simp [dictSet, hk, dictGet]
    · simp [dictSet, hk, dictGet, ih]

theorem dictSet_dictSet (m : List (String × JVal)) (k : String) (v : JVal) :
    dictSet (dictSet m k v) k v = dictSet m k v := by
  induction m with
  | nil => simp [dictSet]
  | cons p t ih =>
    by_cases hk : (p.1 == k) = true
    · simp [dictSet, hk]
    · simp [dictSet, hk, ih]

theorem dictSet_shape (m : List (String × JVal)) (k : String) (v : JVal) :
    ∃ p t, dictSet m k v = p :: t := by
  cases m with
  | nil => exact ⟨(k, v), [], rfl⟩
  | cons q t =>
    by_cases hk : (q.1 == k) = true
    · exact ⟨(k, v), t, by simp [dictSet, hk]⟩
    · exact ⟨q, dictSet t k v, by simp [dictSet, hk]⟩

theorem getLicenseUrl_enrichMetaData (md : JVal) (url : Option String) :
    getLicenseUrl (enrichMetaData md url) = url := by
  cases md <;> cases url <;>
    simp [enrichMetaData, getLicenseUrl, dictGet, dictGet_dictSet, optStr]

theorem enrichMetaData_enrich (md : JVal) (url : Option String) :
    enrichMetaData (enrichMetaData md url) url = enrichMetaData md url := by
  cases md <;> simp [enrichMetaData, dictSet_dictSet, dictSet]

theorem normJson_enrichMetaData (md : JVal) (url : Option String) :
    normJson (enrichMetaData md url) = enrichMetaData md url := by
  cases md with
  | jdict m =>
    obtain ⟨p, t, hshape⟩ := dictSet_shape m "license_url" (optStr url)
    show normJson (JVal.jdict (dictSet m "license_url" (optStr url)))
        = JVal.jdict (dictSet m "license_url" (optStr url))
    rw [hshape]
    rfl
  | jnull => rfl
  | jstr s => rfl
  | jint n => rfl
  | jlist xs => rfl

theorem formatRawTag_format (p q : Option String) (t : JVal) :
    formatRawTag p (formatRawTag q t) = formatRawTag q t := by
  cases t <;> rfl

theorem tags_second_pass (p2 p : Option String) (tags : JVal) :
    normJson (enrichTags p2 (normJson (enrichTags p tags)))
      = normJson (enrichTags p tags) := by
  cases tags with
  | jnull => rfl
  | jstr s => rfl
  | jint n => rfl
  | jdict m => rfl
  | jlist ts =>
    cases ts with
    | nil => rfl
    | cons t rest =>
      show normJson (enrichTags p2 (normJson (JVal.jlist
          (formatRawTag p t :: rest.map (formatRawTag p)))))
        = normJson (JVal.jlist (formatRawTag p t :: rest.map (formatRawTag p)))
      have hmm : rest.map (formatRawTag p2 ∘ formatRawTag p)
          = rest.map (formatRawTag p) :=
        List.map_congr_left (fun a _ => formatRawTag_format p2 p a)
      simp only [normJson, enrichTags, List.map_cons, List.map_map,
        formatRawTag_format, hmm]

theorem hasDotChar_append_dot (l t2 : List Char) :
    hasDotChar (l ++ ('.' :: t2)) = true := by
  induction l with
  | nil => simp [hasDotChar]
  | cons c t ih => simp [hasDotChar, ih]

theorem normalizeVersionString_idem (v : String) :
    normalizeVersionString (normalizeVersionString v) = normalizeVersionString v := by
  unfold normalizeVersionString
  by_cases h : hasDotChar v.data = true
  · rw [if_pos h, if_pos h]
  · rw [if_neg h]
    have hdata : (v ++ ".0").data = v.data ++ ('.' :: ('0' :: [])) := by
      cases v
      rfl
    have hdot : hasDotChar (v ++ ".0").data = true := by
      rw [hdata]
      exact hasDotChar_append_dot v.data _
    rw [if_pos hdot]

theorem getSource_idem (s p : Option String) :
    getSource (getSource s p) p = getSource s p := by
  cases s <;> cases p <;> rfl

theorem optLen_getSource_le (s p : Option String) (n : Nat)
    (hs : optLen s ≤ n) (hp : optLen p ≤ n) : optLen (getSource s p) ≤ n := by
  cases s with
  | none => exact hp
  | some v => exact hs

/-- Resolving the already-resolved pair again, with the same recovered
URL, reproduces it: a derived pair is re-derived from the URL, and a
validated pair stays a normalized table entry. -/
theorem chooseLicenseAndVersion_idem (url l lv : Option String) (c v : String)
    (h : chooseLicenseAndVersion url l lv = (some c, some v)) :
    chooseLicenseAndVersion url (some c) (some v) = (some c, some v) := by
  cases hvu : getValidCCLicenseUrl url with
  | some vu =>
    cases hd : deriveLicenseFromUrl licensePathMap vu with
    | ok cv =>
      simp only [chooseLicenseAndVersion, getLicenseInfo, hvu, hd] at h ⊢
      exact h
    | error e =>
      simp only [chooseLicenseAndVersion, getLicenseInfo, hvu, hd] at h
      simp at h
  | none =>
    simp only [chooseLicenseAndVersion, getLicenseInfo, hvu] at h ⊢
    cases l with
    | none => simp [validateLicensePair] at h
    | some l0 =>
      cases lv with
      | none => simp [validateLicensePair] at h
      | some v0 =>
        simp only [validateLicensePair] at h ⊢
        by_cases hmem : (licensePathMap.any fun e =>
            e.code == l0 && e.version == normalizeVersionString v0) = true
        · rw [if_pos hmem] at h
          have hl0 : l0 = c := by
            have h1 := congrArg Prod.fst h
            simpa using h1
          have hv0 : normalizeVersionString v0 = v := by
            have h2 := congrArg Prod.snd h
            simpa using h2
          subst hl0
          subst hv0
          rw [normalizeVersionString_idem]
          rw [if_pos hmem]
        · rw [if_neg hmem] at h
          simp at h

/-- The cleaned image row is a fixed point: it passes the required-field
gate again, and rebuilding it reproduces it column for column (under the
80-character bounds its stored provider and source columns satisfy). -/
theorem buildCleanImage_fixed (r : ImageRow)
    (hp : optLen r.provider ≤ 80) (hs : optLen r.source ≤ 80)
    (hok : imageRequiredOk r = true) :
    imageRequiredOk (buildCleanImage r) = true
    ∧ buildCleanImage (buildCleanImage r) = buildCleanImage r := by
  have hok' := hok
  simp only [imageRequiredOk, Bool.and_eq_true] at hok'
  obtain ⟨⟨⟨hflu, himg⟩, hlic⟩, hlv⟩ := hok'
  obtain ⟨c, hc, hoptc, hclen⟩ := optStringCol_req 50 _ hlic
  obtain ⟨v, hv, hoptv, hvlen⟩ := optStringCol_req 25 _ hlv
  have hoptc2 : optStringCol 50 false (some c) = some c := hc ▸ hoptc
  have hoptv2 : optStringCol 25 false (some v) = some v := hv ▸ hoptv
  have hchoose : chooseLicenseAndVersion (getLicenseUrl r.meta_data)
      r.license_ r.license_version = (some c, some v) := by
    rw [← hc, ← hv]
  have hmd : (buildCleanImage r).meta_data
      = enrichMetaData r.meta_data (getLicenseUrl r.meta_data) :=
    normJson_enrichMetaData r.meta_data (getLicenseUrl r.meta_data)
  have hurl2 : getLicenseUrl (buildCleanImage r).meta_data
      = getLicenseUrl r.meta_data := by
    rw [hmd, getLicenseUrl_enrichMetaData]
  have hlic2 : (buildCleanImage r).license_ = some c := hoptc
  have hlv2 : (buildCleanImage r).license_version = some v := hoptv
  have hchoose2 : chooseLicenseAndVersion
      (getLicenseUrl (buildCleanImage r).meta_data)
      (buildCleanImage r).license_ (buildCleanImage r).license_version
      = (some c, some v) := by
    rw [hurl2, hlic2, hlv2]
    exact chooseLicenseAndVersion_idem (getLicenseUrl r.meta_data)
      r.license_ r.license_version c v hchoose
  have hprov2 : (buildCleanImage r).provider = r.provider :=
    optStringCol_of_le 80 false r.provider hp
  have hsrcle : optLen (getSource r.source r.provider) ≤ 80 :=
    optLen_getSource_le r.source r.provider 80 hs hp
  have hsrc2 : (buildCleanImage r).source = getSource r.source r.provider :=
    optStringCol_of_le 80 false (getSource r.source r.provider) hsrcle
  constructor
  · simp only [imageRequiredOk, Bool.and_eq_true]
    refine ⟨⟨⟨?_, ?_⟩, ?_⟩, ?_⟩
    · show (optUrlCol 1000 (optUrlCol 1000 r.foreign_landing_url)).isSome = true
      rw [optUrlCol_idem]
      exact hflu
    · show (optUrlCol 3000 (optUrlCol 3000 r.image_url)).isSome = true
      rw [optUrlCol_idem]
      exact himg
    · show (optStringCol 50 false (chooseLicenseAndVersion
          (getLicenseUrl (buildCleanImage r).meta_data)
          (buildCleanImage r).license_
          (buildCleanImage r).license_version).1).isSome = true
      rw [hchoose2]
      show (optStringCol 50 false (some c)).isSome = true
      rw [hoptc2]
      rfl
    · show (optStringCol 25 false (chooseLicenseAndVersion
          (getLicenseUrl (buildCleanImage r).meta_data)
          (buildCleanImage r).license_
          (buildCleanImage r).license_version).2).isSome = true
      rw [hchoose2]
      show (optStringCol 25 false (some v)).isSome = true
      rw [hoptv2]
      rfl
  · apply ImageRow.ext
    · exact optStringCol_idem 3000 false r.foreign_identifier
    · exact optUrlCol_idem 1000 r.foreign_landing_url
    · exact optUrlCol_idem 3000 r.image_url
    · exact optUrlCol_idem 3000 r.thumbnail_url
    · rfl
    · rfl
    · rfl
    · show optStringCol 50 false (chooseLicenseAndVersion
          (getLicenseUrl (buildCleanImage r).meta_data)
          (buildCleanImage r).license_
          (buildCleanImage r).license_version).1
        = (buildCleanImage r).license_
      rw [hchoose2, hlic2]
      exact hoptc2
    · show optStringCol 25 false (chooseLicenseAndVersion
          (getLicenseUrl (buildCleanImage r).meta_data)
          (buildCleanImage r).license_
          (buildCleanImage r).license_version).2
        = (buildCleanImage r).license_version
      rw [hchoose2, hlv2]
      exact hoptv2
    · exact optStringCol_idem 2000 true r.creator
    · exact optUrlCol_idem 2000 r.creator_url
    · exact optStringCol_idem 5000 true r.title
    · show normJson (enrichMetaData (buildCleanImage r).meta_data
          (getLicenseUrl (buildCleanImage r).meta_data))
        = (buildCleanImage r).meta_data
      rw [hurl2, hmd, enrichMetaData_enrich]
      exact normJson_enrichMetaData r.meta_data (getLicenseUrl r.meta_data)
    · exact tags_second_pass (buildCleanImage r).provider r.provider r.tags
    · exact optStringCol_idem 80 false r.watermarked
    · show optStringCol 80 false (buildCleanImage r).provider
        = (buildCleanImage r).provider
      rw [hprov2]
      exact optStringCol_of_le 80 false r.provider hp
    · show optStringCol 80 false (getSource (buildCleanImage r).source
          (buildCleanImage r).provider)
        = (buildCleanImage r).source
      rw [hprov2, hsrc2, getSource_idem]
      exact optStringCol_of_le 80 false (getSource r.source r.provider) hsrcle

theorem cleanImageRow_idem (r r2 : ImageRow)
    (hp : optLen r.provider ≤ 80) (hs : optLen r.source ≤ 80)
    (h : cleanImageRow r = Except.ok r2) :
    cleanImageRow r2 = Except.ok r2 := by
  unfold cleanImageRow at h
  by_cases hok : imageRequiredOk r = true
  · rw [if_pos hok] at h
    cases h
    obtain ⟨hok2, hfix⟩ := buildCleanImage_fixed r hp hs hok
    unfold cleanImageRow
    rw [if_pos hok2, hfix]
  · rw [if_neg hok] at h
    cases h

/-- C6: the re-normalizer is idempotent — for any partition of persisted
rows (whose stored provider and source columns fit their 80-character
schema bound), when one pass succeeds, a second pass over its output
succeeds and leaves every stored column of every row byte-identical. -/
theorem cleanImagePartition_idempotent (rows rows2 : List ImageRow)
    (hb : ∀ r ∈ rows, optLen r.provider ≤ 80 ∧ optLen r.source ≤ 80)
    (h : cleanImagePartition rows = Except.ok rows2) :
    cleanImagePartition rows2 = Except.ok rows2 := by
  induction rows generalizing rows2 with
  | nil =>
    cases h
    rfl
  | cons r rest ih =>
    simp only [cleanImagePartition] at h
    cases hcr : cleanImageRow r with
    | error e => rw [hcr] at h; cases h
    | ok r2 =>
      rw [hcr] at h
      cases hrest : cleanImagePartition rest with
      | error e => rw [hrest] at h; cases h
      | ok rest2 =>
        rw [hrest] at h
        cases h
        have hbr := hb r (List.mem_cons_self r rest)
        have h1 := cleanImageRow_idem r r2 hbr.1 hbr.2 hcr
        have h2 := ih rest2
          (fun x hx => hb x (List.mem_cons_of_mem r hx)) hrest
        simp only [cleanImagePartition, h1, h2]

/-- A concrete persisted row for the idempotence witness: a CC BY 4.0
image with its license URL stored in `meta_data`. -/
def sampleImageRow : ImageRow :=
  ⟨some "fid", some "https://x.org/1", some "https://x.org/1.jpg", none,
   some 640, some 480, none, some "by", some "4.0", none, none,
   some "A title",
   JVal.jdict
     [("license_url",
       JVal.jstr "https://creativecommons.org/licenses/by/4.0/")],
   JVal.jnull, some "f", some "flickr", none⟩

/-- The cleaned partition of the witness row. -/
def sampleImageCleaned : List ImageRow :=
  (cleanImagePartition [sampleImageRow]).toOption.getD []

/-- Witness for C6: cleaning the sample partition succeeds, and cleaning
its output again returns that output unchanged. -/
theorem cleanImagePartition_idempotent_witness :
    (∀ r ∈ [sampleImageRow], optLen r.provider ≤ 80 ∧ optLen r.source ≤ 80)
    ∧ cleanImagePartition [sampleImageRow] = Except.ok sampleImageCleaned
    ∧ cleanImagePartition sampleImageCleaned = Except.ok sampleImageCleaned :=
  ⟨by decide, rfl,
   cleanImagePartition_idempotent [sampleImageRow] sampleImageCleaned
     (by decide) rfl⟩

end CCCatalog
